import Mathlib

/-!
Shallow embedding of the express-async-methods package
(src/index.js and src/utils/once.js) and proofs of its specification.

The package wraps asynchronous express handlers so that promise
settlement is translated into the framework's continuation (next)
protocol.  The embedding models:

* the once guard (src/utils/once.js) as a state machine over an
  abstract type of call records (a call record can carry both the
  receiver/context and the argument list, so forwarding of the call
  context is part of the modelled data);
* the _mainWrap runtime logic (src/index.js lines 56-71) as a function
  from the handler's behaviour on one invocation (synchronous throw,
  non-promise return value, or a promise that resolves or rejects) and
  the response's headersSent flag at settlement time to the list of
  calls the wrapper makes on the guarded continuation;
* wrap / wrapParam (src/index.js lines 80-134) as producers of static
  metadata: the declared length, name, and the argument indices used
  for res and next;
* _wrapArg (src/index.js lines 30-45) as a recursive classifier over a
  JavaScript-argument ADT, with TypeError modelled in an error monad;
* addAsync (src/index.js lines 143-191) by explicit state passing: the
  app is a property table plus the set of native framework methods, and
  the caller's methods array is threaded through and returned so that
  the in-place splice mutation is observable.
-/

/-- A JavaScript function as far as the wrapper statically inspects it:
only its declared parameter count (fn.length) matters. -/
structure JsFunction where
  length : Nat
deriving DecidableEq, Repr

/-- State of one once closure (src/utils/once.js): the private called
flag and, as the observable effect, the list of call records that were
forwarded to the underlying fn. -/
structure OnceState (α : Type) where
  called : Bool
  delivered : List α
deriving DecidableEq, Repr

/-- One invocation of onceWrapped (src/utils/once.js lines 11-17): if
called is set, return silently; otherwise set it and forward the call
record (context and arguments) to fn. -/
def onceStep {α : Type} (s : OnceState α) (call : α) : OnceState α :=
  if s.called then s
  else ⟨true, s.delivered ++ [call]⟩

/-- The fresh state of a once closure: called = false, nothing
forwarded yet. -/
def onceInit {α : Type} : OnceState α :=
  ⟨false, []⟩

/-- Effect of a whole sequence of invocations of one onceWrapped
closure, in call order. -/
def onceRun {α : Type} (calls : List α) : OnceState α :=
  calls.foldl onceStep onceInit

/-- One call on the guarded continuation: next() with no arguments, or
next(e) carrying an error value. -/
inductive NextCall (ε : Type) where
  | success
  | error (e : ε)
deriving DecidableEq, Repr

/-- What one invocation of the user handler does, as observed by
_mainWrap: throw synchronously, return a non-promise value, or return a
promise that settles with Except.ok () or Except.error e. -/
inductive HandlerBehavior (ε : Type) where
  | throws (e : ε)
  | returnsValue
  | returnsPromise (outcome : Except ε Unit)

/-- The try block of _mainWrap (src/index.js lines 57-66): invoking the
handler and, when the result is a promise, awaiting it and calling
next() unless headers were already sent.  Except.error e is an
exception propagating to the catch clause. -/
def mainWrapTry {ε : Type} (b : HandlerBehavior ε) (headersSent : Bool) :
    Except ε (List (NextCall ε)) :=
  match b with
  | .throws e => .error e
  | .returnsValue => .ok []
  | .returnsPromise (.ok _) =>
      .ok (if headersSent then [] else [NextCall.success])
  | .returnsPromise (.error e) => .error e

/-- _mainWrap (src/index.js lines 56-71): the try block plus the catch
clause, which calls next(err) unless headers were already sent.  The
result is the list of calls _mainWrap itself makes on the guarded
continuation; totality of this function is the absence of an escaping
exception. -/
def mainWrap {ε : Type} (b : HandlerBehavior ε) (headersSent : Bool) :
    List (NextCall ε) :=
  match mainWrapTry b headersSent with
  | .ok calls => calls
  | .error e => if headersSent then [] else [NextCall.error e]

/-- One full invocation of a wrapped handler (asyncWrapped in wrap, or
wrappedParamMiddleware in wrapParam): the framework continuation is
replaced by a fresh once guard before the handler runs, so every
attempt on it, by the handler's own code (handlerAttempts) and by
_mainWrap's auto-continuation logic, goes through the same guard. -/
def wrappedInvocation {ε : Type} (handlerAttempts : List (NextCall ε))
    (b : HandlerBehavior ε) (headersSent : Bool) : OnceState (NextCall ε) :=
  onceRun (handlerAttempts ++ mainWrap b headersSent)

/-- Static metadata of the function returned by wrap (src/index.js
lines 80-110): Object.defineProperties fixes length and name, and the
arity of fn decides which argument positions hold res and next. -/
structure WrappedHandler where
  length : Nat
  name : String
  resIndex : Nat
  nextIndex : Nat
deriving DecidableEq, Repr

/-- wrap (src/index.js lines 80-110).  isErrorHandler is
fn.length === 4; the JavaScript arithmetic 1 + isErrorHandler and
2 + isErrorHandler coerces the boolean to 0 or 1. -/
def wrap (fn : JsFunction) : WrappedHandler :=
  let isErrorHandler := fn.length == 4
  { length := if isErrorHandler then 4 else 3
    name := if isErrorHandler then "wrappedErrorHandler" else "wrappedMiddleware"
    resIndex := 1 + (if isErrorHandler then 1 else 0)
    nextIndex := 2 + (if isErrorHandler then 1 else 0) }

/-- Static metadata of the function returned by wrapParam (src/index.js
lines 119-134): only length is redefined (to 5); res and next sit at
the fixed indices 1 and 2. -/
structure WrappedParamHandler where
  length : Nat
  resIndex : Nat
  nextIndex : Nat
deriving DecidableEq, Repr

/-- wrapParam (src/index.js lines 119-134).  The argument fn is not
inspected statically at all. -/
def wrapParam (fn : JsFunction) : WrappedParamHandler :=
  { length := 5, resIndex := 1, nextIndex := 2 }

/-- A registration-call argument as classified by _wrapArg: a path
string, a RegExp (kept by its source text), a function, an array of
arguments, or anything else, kept by its JavaScript typeof string. -/
inductive Arg where
  | str (s : String)
  | regex (source : String)
  | fn (f : JsFunction)
  | arr (elems : List Arg)
  | other (kind : String)

/-- The result of _wrapArg: strings and RegExps unchanged, functions
replaced by wrap's output, arrays mapped recursively. -/
inductive WrappedArg where
  | str (s : String)
  | regex (source : String)
  | wrapped (w : WrappedHandler)
  | arr (elems : List WrappedArg)

/-- A thrown JavaScript error, as far as this package distinguishes
them: the TypeError thrown by _wrapArg (with its message), or the
TypeError the runtime raises when a missing method is called. -/
inductive JsError where
  | typeError (message : String)
  | notAFunction (name : String)
deriving DecidableEq, Repr

/-- The message of the TypeError thrown by _wrapArg (src/index.js line
44), with the offending typeof interpolated. -/
def argKindMessage (kind : String) : String :=
  "An unexpected argument kind (" ++ kind ++
    ") has been given to the router. See <https://expressjs.com/en/api.html#app.METHOD>"

mutual

/-- _wrapArg (src/index.js lines 30-45): strings returned unchanged,
functions wrapped, arrays mapped element-wise (arg.map(_wrapArg)),
RegExps returned unchanged, anything else throws a TypeError naming
typeof arg. -/
def wrapArg : Arg → Except JsError WrappedArg
  | .str s => .ok (.str s)
  | .fn f => .ok (.wrapped (wrap f))
  | .arr elems =>
      match wrapArgs elems with
      | .error e => .error e
      | .ok l => .ok (.arr l)
  | .regex r => .ok (.regex r)
  | .other kind => .error (.typeError (argKindMessage kind))

/-- arg.map(_wrapArg) (src/index.js line 39) and map.call(arguments,
_wrapArg) (line 183): left to right, the first throw aborts the map and
propagates. -/
def wrapArgs : List Arg → Except JsError (List WrappedArg)
  | [] => .ok []
  | a :: rest =>
      match wrapArg a with
      | .error e => .error e
      | .ok a2 =>
          match wrapArgs rest with
          | .error e => .error e
          | .ok rest2 => .ok (a2 :: rest2)

end

/-- A property installed on the app by addAsync: the generic
methodAsync wrapper (remembering which native method it forwards to),
the special paramAsync method, or routeAsync. -/
inductive InstalledMethod where
  | genericAsync (target : String)
  | paramAsync
  | routeAsync
deriving DecidableEq, Repr

/-- A routable express object: the registration methods the framework
itself provides, and the property table of methods addAsync installed
on it (in insertion order, later assignments overwriting in place). -/
structure App where
  nativeMethods : List String
  props : List (String × InstalledMethod)
deriving DecidableEq, Repr

/-- JavaScript property assignment app[k] = v on the installed table:
overwrite the existing entry for k, or append a new one. -/
def setProp : List (String × InstalledMethod) → String → InstalledMethod →
    List (String × InstalledMethod)
  | [], k, v => [(k, v)]
  | (k2, v2) :: rest, k, v =>
      if k2 = k then (k, v) :: rest else (k2, v2) :: setProp rest k v

/-- JavaScript property lookup app[k] on the installed table. -/
def getProp : List (String × InstalledMethod) → String → Option InstalledMethod
  | [], _ => none
  | (k2, v) :: rest, k => if k2 = k then some v else getProp rest k

/-- The for-of loop of addAsync (src/index.js lines 170-188): for each
method name, install a methodAsync property forwarding to that native
method. -/
def installLoop (props : List (String × InstalledMethod)) (methods : List String) :
    List (String × InstalledMethod) :=
  methods.foldl (fun p m => setProp p (m ++ "Async") (InstalledMethod.genericAsync m)) props

/-- The default methods array of addAsync (src/index.js line 145). -/
def defaultMethods : List String :=
  ["use", "delete", "get", "head", "param", "patch", "post", "put"]

/-- addAsync (src/index.js lines 143-191): install routeAsync, then, if
the caller's methods array contains param (methods.indexOf), splice out
its first occurrence in place and install paramAsync, then run the
install loop over the remaining methods.  The pair returned is the
mutated app together with the caller's methods array as it stands after
the in-place splice; in JavaScript the default argument is a fresh
array (defaultMethods) on every call. -/
def addAsync (app : App) (methods : List String) : App × List String :=
  let props1 := setProp app.props "routeAsync" InstalledMethod.routeAsync
  match methods.findIdx? (fun m => m == "param") with
  | some i =>
      let methods2 := methods.eraseIdx i
      let props2 := setProp props1 "paramAsync" InstalledMethod.paramAsync
      ({ app with props := installLoop props2 methods2 }, methods2)
  | none =>
      ({ app with props := installLoop props1 methods }, methods)

/-- The body of a generated methodAsync function (src/index.js lines
182-186): first map every argument through _wrapArg (a throw there
surfaces synchronously to the caller), then call the native method —
which raises the runtime's not-a-function TypeError if the app has no
such method. -/
def genericAsyncBody (app : App) (method : String) (args : List Arg) :
    Except JsError (String × List WrappedArg) :=
  match wrapArgs args with
  | .error e => .error e
  | .ok wargs =>
      if app.nativeMethods.contains method then .ok (method, wargs)
      else .error (.notAFunction method)

/-- What calling app[name](args) does after augmentation: dispatch on
the installed property; calling a name that was never installed is the
runtime's not-a-function TypeError.  paramAsync and routeAsync are
summarised by their tags, the generic wrappers by genericAsyncBody. -/
def invokeAsync (app : App) (name : String) (args : List Arg) :
    Except JsError (String × List WrappedArg) :=
  match getProp app.props name with
  | some (.genericAsync target) => genericAsyncBody app target args
  | some .paramAsync => .ok ("param", [])
  | some .routeAsync => .ok ("route", [])
  | none => .error (.notAFunction name)

/-- A sequence of property assignments applied in order. -/
def applyOps (props : List (String × InstalledMethod))
    (ops : List (String × InstalledMethod)) : List (String × InstalledMethod) :=
  ops.foldl (fun p kv => setProp p kv.1 kv.2) props

/-- The last value, if any, that a sequence of assignments writes to a
given key. -/
def lastWrite : List (String × InstalledMethod) → String → Option InstalledMethod
  | [], _ => none
  | kv :: rest, k =>
      match lastWrite rest k with
      | some v => some v
      | none => if kv.1 = k then some kv.2 else none

/-- The property assignments addAsync performs, in order, as a function
of the methods array it was given: routeAsync first, then paramAsync if
param is present (with its first occurrence spliced out of the loop),
then one methodAsync per remaining entry. -/
def writeOps (methods : List String) : List (String × InstalledMethod) :=
  ("routeAsync", InstalledMethod.routeAsync) ::
    match methods.findIdx? (fun m => m == "param") with
    | some i =>
        ("paramAsync", InstalledMethod.paramAsync) ::
          (methods.eraseIdx i).map (fun m => (m ++ "Async", InstalledMethod.genericAsync m))
    | none => methods.map (fun m => (m ++ "Async", InstalledMethod.genericAsync m))

/-! ## Properties of the once guard -/

/-- After the guard has fired, every further invocation leaves the
state untouched. -/
theorem foldl_onceStep_fired {α : Type} (calls : List α) (d : List α) :
    calls.foldl onceStep ⟨true, d⟩ = ⟨true, d⟩ := by
  induction calls with
  | nil => rfl
  | cons c rest ih => simpa [onceStep] using ih

/-- Running the guard on a nonempty call sequence fires on the first
call and forwards exactly it. -/
theorem onceRun_cons {α : Type} (c : α) (rest : List α) :
    onceRun (c :: rest) = ⟨true, [c]⟩ := by
  have h1 : onceStep (⟨false, []⟩ : OnceState α) c = ⟨true, [c]⟩ := rfl
  calc onceRun (c :: rest)
      = rest.foldl onceStep (onceStep ⟨false, []⟩ c) := rfl
    _ = rest.foldl onceStep ⟨true, [c]⟩ := by rw [h1]
    _ = ⟨true, [c]⟩ := foldl_onceStep_fired rest [c]

/-- The calls a once guard forwards to the underlying function are
exactly the first call of the sequence. -/
theorem onceRun_delivered {α : Type} (calls : List α) :
    (onceRun calls).delivered = calls.take 1 := by
  cases calls with
  | nil => rfl
  | cons c rest =>
      rw [onceRun_cons]
      rfl

/-! ## Claim theorems -/

/-- C5: once(fn) forwards the first call record (context and arguments
together) to fn and discards everything after it; N calls (N at least 1)
leave the guard in the same state as the first call alone; and a call on
an already-fired guard is a silent no-op returning the state unchanged. -/
theorem once_guard_first_call_only (α : Type) (calls : List α) :
    (onceRun calls).delivered = calls.take 1 ∧
      onceRun calls = onceRun (calls.take 1) ∧
      (∀ (d : List α) (call : α), onceStep ⟨true, d⟩ call = ⟨true, d⟩) := by
  refine ⟨onceRun_delivered calls, ?_, fun d call => rfl⟩
  cases calls with
  | nil => rfl
  | cons c rest => rw [show (c :: rest).take 1 = [c] from rfl, onceRun_cons c rest, onceRun_cons c []]

/-- C1: over one invocation of a wrapped handler, whatever the handler's
own attempts on the continuation and whatever _mainWrap contributes, the
underlying framework continuation is reached at most once: the delivered
calls are empty, exactly one success call, or exactly one error call. -/
theorem wrapped_handler_next_at_most_once (ε : Type)
    (handlerAttempts : List (NextCall ε)) (b : HandlerBehavior ε) (headersSent : Bool) :
    (wrappedInvocation handlerAttempts b headersSent).delivered.length ≤ 1 ∧
      ((wrappedInvocation handlerAttempts b headersSent).delivered = [] ∨
        (wrappedInvocation handlerAttempts b headersSent).delivered = [NextCall.success] ∨
        ∃ e, (wrappedInvocation handlerAttempts b headersSent).delivered = [NextCall.error e]) := by
  unfold wrappedInvocation
  rw [onceRun_delivered]
  cases handlerAttempts ++ mainWrap b headersSent with
  | nil => exact ⟨by simp, Or.inl rfl⟩
  | cons c rest =>
      cases c with
      | success => exact ⟨by simp, Or.inr (Or.inl rfl)⟩
      | error e => exact ⟨by simp, Or.inr (Or.inr ⟨e, rfl⟩)⟩

/-- C2: when the handler's promise resolves, _mainWrap calls the guarded
continuation once with no arguments if headersSent is false at
settlement, and does not call it at all if headersSent is true. -/
theorem resolve_calls_next_unless_sent (ε : Type) :
    @mainWrap ε (HandlerBehavior.returnsPromise (Except.ok ())) false = [NextCall.success] ∧
      @mainWrap ε (HandlerBehavior.returnsPromise (Except.ok ())) true = [] :=
  ⟨rfl, rfl⟩

/-- C3: a synchronous throw and a promise rejection are both caught by
_mainWrap (mainWrapTry surfaces them as Except.error, and total mainWrap
absorbs them) and become exactly one error-carrying continuation call,
unless headersSent is set, in which case the continuation is not
called. -/
theorem failure_translated_to_error_next (ε : Type) (e : ε) (headersSent : Bool) :
    mainWrapTry (HandlerBehavior.throws e) headersSent = Except.error e ∧
      mainWrap (HandlerBehavior.throws e) headersSent =
        (if headersSent then [] else [NextCall.error e]) ∧
      mainWrapTry (HandlerBehavior.returnsPromise (Except.error e)) headersSent = Except.error e ∧
      mainWrap (HandlerBehavior.returnsPromise (Except.error e)) headersSent =
        (if headersSent then [] else [NextCall.error e]) := by
  cases headersSent <;> exact ⟨rfl, rfl, rfl, rfl⟩

/-- C4: when the handler returns a non-promise value, _mainWrap makes no
continuation call at all, whatever the headersSent flag. -/
theorem non_promise_result_no_auto_next (ε : Type) (headersSent : Bool) :
    @mainWrap ε HandlerBehavior.returnsValue headersSent = [] := by
  cases headersSent <;> rfl

/-- C6: wrap reports declared length 4 exactly when the handler declares
4 parameters and 3 otherwise, and wrapParam reports length 5 whatever
the handler's declared parameter count. -/
theorem wrapped_arity_reported (fn : JsFunction) :
    (fn.length = 4 → (wrap fn).length = 4) ∧
      (fn.length ≠ 4 → (wrap fn).length = 3) ∧
      (wrapParam fn).length = 5 := by
  refine ⟨fun h => ?_, fun h => ?_, rfl⟩
  · simp [wrap, h]
  · simp [wrap, h]

/-- Witness for C6: a 4-parameter handler wraps to length 4, a
3-parameter one to length 3, and wrapParam of the same 3-parameter
handler reports length 5. -/
theorem wrapped_arity_reported_witness :
    (wrap ⟨4⟩).length = 4 ∧ (wrap ⟨3⟩).length = 3 ∧ (wrapParam ⟨3⟩).length = 5 :=
  ⟨(wrapped_arity_reported ⟨4⟩).1 rfl,
    (wrapped_arity_reported ⟨3⟩).2.1 (by decide),
    (wrapped_arity_reported ⟨3⟩).2.2⟩

/-- A successful arg.map(_wrapArg) relates input and output element by
element: each output is the classification of the input at the same
position. -/
theorem wrapArgs_ok_forall2 (elems : List Arg) (l2 : List WrappedArg)
    (h : wrapArgs elems = Except.ok l2) :
    List.Forall₂ (fun a w => wrapArg a = Except.ok w) elems l2 := by
  induction elems generalizing l2 with
  | nil =>
      simp only [wrapArgs] at h
      injection h with h
      subst h
      exact List.Forall₂.nil
  | cons a rest ih =>
      rw [wrapArgs] at h
      cases ha : wrapArg a with
      | error e => rw [ha] at h; exact absurd h (by simp)
      | ok a2 =>
          rw [ha] at h
          cases hr : wrapArgs rest with
          | error e => rw [hr] at h; exact absurd h (by simp)
          | ok rest2 =>
              rw [hr] at h
              injection h with h
              cases h
              exact List.Forall₂.cons ha (ih rest2 hr)

/-- C7: the argument classifier returns path strings and RegExp objects
unchanged, replaces a function by wrap's output, maps an array
recursively to an array of equal length whose elements are the
classifications of the originals in order, throws the TypeError naming
the offending typeof for any other shape, and a throw during the
normalization pass of a generated methodAsync call surfaces directly to
the caller, before the underlying registration method is touched. -/
theorem argument_classifier_spec :
    (∀ s : String, wrapArg (Arg.str s) = Except.ok (WrappedArg.str s)) ∧
      (∀ r : String, wrapArg (Arg.regex r) = Except.ok (WrappedArg.regex r)) ∧
      (∀ f : JsFunction, wrapArg (Arg.fn f) = Except.ok (WrappedArg.wrapped (wrap f))) ∧
      (∀ (elems : List Arg) (l2 : List WrappedArg),
        wrapArg (Arg.arr elems) = Except.ok (WrappedArg.arr l2) →
          l2.length = elems.length ∧
            List.Forall₂ (fun a w => wrapArg a = Except.ok w) elems l2) ∧
      (∀ kind : String,
        wrapArg (Arg.other kind) = Except.error (JsError.typeError (argKindMessage kind))) ∧
      (∀ (app : App) (method : String) (args : List Arg) (e : JsError),
        wrapArgs args = Except.error e → genericAsyncBody app method args = Except.error e) := by
  refine ⟨fun s => rfl, fun r => rfl, fun f => rfl, ?_, fun kind => rfl, ?_⟩
  · intro elems l2 h
    rw [wrapArg] at h
    cases hw : wrapArgs elems with
    | error e => rw [hw] at h; exact absurd h (by simp)
    | ok l =>
        rw [hw] at h
        injection h with h
        injection h with h
        subst h
        have h2 := wrapArgs_ok_forall2 elems l hw
        exact ⟨h2.length_eq.symm, h2⟩
  · intro app method args e h
    unfold genericAsyncBody
    rw [h]

/-- Witness for C7: classifying the array [path "a", a two-parameter
handler] succeeds with matching length and element-wise wrapping, and a
methodAsync call whose argument list contains a number is refused with
the TypeError before the native method is consulted. -/
theorem argument_classifier_spec_witness :
    ([WrappedArg.str "a", WrappedArg.wrapped (wrap ⟨2⟩)].length =
        [Arg.str "a", Arg.fn ⟨2⟩].length ∧
      List.Forall₂ (fun a w => wrapArg a = Except.ok w) [Arg.str "a", Arg.fn ⟨2⟩]
        [WrappedArg.str "a", WrappedArg.wrapped (wrap ⟨2⟩)]) ∧
      genericAsyncBody ⟨["get"], []⟩ "get" [Arg.other "number"] =
        Except.error (JsError.typeError (argKindMessage "number")) :=
  ⟨argument_classifier_spec.2.2.2.1 [Arg.str "a", Arg.fn ⟨2⟩]
      [WrappedArg.str "a", WrappedArg.wrapped (wrap ⟨2⟩)] rfl,
    argument_classifier_spec.2.2.2.2.2 ⟨["get"], []⟩ "get" [Arg.other "number"]
      (JsError.typeError (argKindMessage "number")) rfl⟩

/-! ## Properties of the property table and addAsync -/

/-- Property lookup after one assignment: the assigned key reads back
the new value, every other key is untouched. -/
theorem getProp_setProp (props : List (String × InstalledMethod)) (k : String)
    (v : InstalledMethod) (k2 : String) :
    getProp (setProp props k v) k2 = if k = k2 then some v else getProp props k2 := by
  induction props with
  | nil => rfl
  | cons kv rest ih =>
      obtain ⟨k3, v3⟩ := kv
      by_cases h1 : k3 = k
      · subst h1
        simp only [setProp, if_pos rfl, getProp]
        by_cases h2 : k3 = k2 <;> simp [h2]
      · simp only [setProp, if_neg h1, getProp, ih]
        by_cases h2 : k3 = k2
        · subst h2
          have h3 : ¬k = k3 := fun he => h1 he.symm
          simp [h3]
        · simp [h2]

/-- Property lookup after a sequence of assignments: the last write to
the key wins, and keys never written fall back to the original table. -/
theorem getProp_applyOps (ops : List (String × InstalledMethod))
    (props : List (String × InstalledMethod)) (k : String) :
    getProp (applyOps props ops) k =
      match lastWrite ops k with
      | some v => some v
      | none => getProp props k := by
  induction ops generalizing props with
  | nil => rfl
  | cons kv rest ih =>
      show getProp (applyOps (setProp props kv.1 kv.2) rest) k = _
      rw [ih]
      cases hr : lastWrite rest k with
      | some v => simp [lastWrite, hr]
      | none =>
          simp only [lastWrite, hr]
          rw [getProp_setProp]
          by_cases h2 : kv.1 = k
          · simp [h2]
          · simp [h2]

/-- addAsync writes exactly the writeOps assignments onto the app's
property table and leaves the native method set untouched. -/
theorem addAsync_props (app : App) (ms : List String) :
    (addAsync app ms).1.props = applyOps app.props (writeOps ms) ∧
      (addAsync app ms).1.nativeMethods = app.nativeMethods := by
  have hloop : ∀ (methods : List String) (props : List (String × InstalledMethod)),
      installLoop props methods =
        applyOps props (methods.map (fun m => (m ++ "Async", InstalledMethod.genericAsync m))) := by
    intro methods
    induction methods with
    | nil => intro props; rfl
    | cons m rest ih =>
        intro props
        show installLoop (setProp props (m ++ "Async") (InstalledMethod.genericAsync m)) rest = _
        rw [ih]
        rfl
  cases hf : ms.findIdx? (fun m => m == "param") with
  | some i =>
      constructor
      · show (addAsync app ms).1.props = _
        simp only [addAsync, hf, writeOps]
        rw [hloop]
        rfl
      · simp only [addAsync, hf]
  | none =>
      constructor
      · simp only [addAsync, hf, writeOps]
        rw [hloop]
        rfl
      · simp only [addAsync, hf]

/-- Property lookup on an augmented app: the last addAsync write to the
name wins, otherwise the app's previous table answers. -/
theorem getProp_addAsync (app : App) (ms : List String) (k : String) :
    getProp (addAsync app ms).1.props k =
      match lastWrite (writeOps ms) k with
      | some v => some v
      | none => getProp app.props k := by
  rw [(addAsync_props app ms).1]
  exact getProp_applyOps (writeOps ms) app.props k

/-- C8: addAsync returns the same routable mutated in place (its native
method set is untouched) and re-augmenting an already-augmented app is
observably identical to augmenting once: every property reads back the
same, and calling any installed Async method gives the same result. -/
theorem augment_idempotent (app : App) (ms : List String) :
    (addAsync app ms).1.nativeMethods = app.nativeMethods ∧
      (addAsync (addAsync app ms).1 ms).1.nativeMethods = (addAsync app ms).1.nativeMethods ∧
      (∀ k, getProp (addAsync (addAsync app ms).1 ms).1.props k =
        getProp (addAsync app ms).1.props k) ∧
      (∀ name args, invokeAsync (addAsync (addAsync app ms).1 ms).1 name args =
        invokeAsync (addAsync app ms).1 name args) := by
  have hn1 := (addAsync_props app ms).2
  have hn2 := (addAsync_props (addAsync app ms).1 ms).2
  have hprops : ∀ k, getProp (addAsync (addAsync app ms).1 ms).1.props k =
      getProp (addAsync app ms).1.props k := by
    intro k
    rw [getProp_addAsync, getProp_addAsync]
    cases hl : lastWrite (writeOps ms) k with
    | some v => rfl
    | none => rfl
  refine ⟨hn1, hn2, hprops, ?_⟩
  intro name args
  unfold invokeAsync
  rw [hprops name]
  cases getProp (addAsync app ms).1.props name with
  | none => rfl
  | some im =>
      cases im with
      | genericAsync target =>
          show genericAsyncBody (addAsync (addAsync app ms).1 ms).1 target args = _
          unfold genericAsyncBody
          rw [hn2]
      | paramAsync => rfl
      | routeAsync => rfl

/-- C9: addAsync does not validate method names against the app: for a
name the framework does not provide (other than param), augmentation
still succeeds and installs the Async wrapper, and only invoking that
wrapper fails, with the runtime's not-a-function error for the missing
native method. -/
theorem augment_no_validation (app : App) (m : String)
    (hp : m ≠ "param") (hn : app.nativeMethods.contains m = false) :
    getProp (addAsync app [m]).1.props (m ++ "Async") =
        some (InstalledMethod.genericAsync m) ∧
      invokeAsync (addAsync app [m]).1 (m ++ "Async") [] =
        Except.error (JsError.notAFunction m) := by
  have hfind : ([m].findIdx? (fun x => x == "param")) = none := by
    simp [List.findIdx?_cons, List.findIdx?_nil, hp]
  have h1 : (addAsync app [m]).1.props =
      setProp (setProp app.props "routeAsync" InstalledMethod.routeAsync) (m ++ "Async")
        (InstalledMethod.genericAsync m) := by
    simp [addAsync, hfind, installLoop]
  have h2 : (addAsync app [m]).1.nativeMethods = app.nativeMethods :=
    (addAsync_props app [m]).2
  have h3 : getProp (addAsync app [m]).1.props (m ++ "Async") =
      some (InstalledMethod.genericAsync m) := by
    rw [h1, getProp_setProp]
    simp
  refine ⟨h3, ?_⟩
  unfold invokeAsync
  rw [h3]
  show genericAsyncBody (addAsync app [m]).1 m [] = _
  unfold genericAsyncBody
  rw [h2]
  have hn2 : m ∉ app.nativeMethods := by simpa using hn
  simp [wrapArgs, hn2]

/-- Witness for C9: augmenting an app that only provides get with the
single bogus method name fakeMethod installs fakeMethodAsync, and the
first call of fakeMethodAsync fails with not-a-function. -/
theorem augment_no_validation_witness :
    getProp (addAsync ⟨["get"], []⟩ ["fakeMethod"]).1.props ("fakeMethod" ++ "Async") =
        some (InstalledMethod.genericAsync "fakeMethod") ∧
      invokeAsync (addAsync ⟨["get"], []⟩ ["fakeMethod"]).1 ("fakeMethod" ++ "Async") [] =
        Except.error (JsError.notAFunction "fakeMethod") :=
  augment_no_validation ⟨["get"], []⟩ "fakeMethod" (by decide) (by decide)

/-- When param occurs in the methods array, methods.indexOf finds the
index of its first occurrence, and splicing there is exactly removing
the first occurrence. -/
theorem findIdx_param_erase (ms : List String) (h : "param" ∈ ms) :
    ∃ i, ms.findIdx? (fun m => m == "param") = some i ∧
      ms.eraseIdx i = ms.erase "param" := by
  induction ms with
  | nil => cases h
  | cons a rest ih =>
      by_cases ha : a = "param"
      · subst ha
        refine ⟨0, ?_, ?_⟩
        · simp [List.findIdx?_cons]
        · simp [List.erase_cons]
      · have h2 : "param" ∈ rest := by
          cases h with
          | head => exact absurd rfl ha
          | tail _ hm => exact hm
        obtain ⟨i, hf, he⟩ := ih h2
        refine ⟨i + 1, ?_, ?_⟩
        · simp [List.findIdx?_cons, ha, hf]
        · have hae : (a :: rest).erase "param" = a :: rest.erase "param" := by
            simp [List.erase_cons, ha]
          rw [hae]
          show a :: rest.eraseIdx i = a :: rest.erase "param"
          rw [he]

/-- Counterexample to C10 as stated: with the caller's array
["param", "param"], addAsync removes only the first occurrence, so
after augmentation the caller's array still contains "param". -/
theorem methods_array_param_counterexample :
    "param" ∈ (["param", "param"] : List String) ∧
      (addAsync ⟨[], []⟩ ["param", "param"]).2 = ["param"] ∧
      "param" ∈ (addAsync ⟨[], []⟩ ["param", "param"]).2 := by
  refine ⟨by decide, rfl, by decide⟩

/-- C10 (amended): when the caller's methods array contains "param",
addAsync splices out exactly the first "param" entry in place: the
returned array is the caller's array with its first "param" occurrence
removed (all other entries unchanged, in order) and is one element
shorter. -/
theorem methods_array_spliced_in_place (app : App) (ms : List String)
    (h : "param" ∈ ms) :
    (addAsync app ms).2 = ms.erase "param" ∧
      (addAsync app ms).2.length + 1 = ms.length := by
  obtain ⟨i, hf, he⟩ := findIdx_param_erase ms h
  have h1 : (addAsync app ms).2 = ms.eraseIdx i := by
    simp only [addAsync, hf]
  have h2 : (addAsync app ms).2 = ms.erase "param" := by rw [h1, he]
  refine ⟨h2, ?_⟩
  rw [h2, List.length_erase_of_mem h]
  have : 1 ≤ ms.length := List.length_pos.mpr (List.ne_nil_of_mem h)
  omega

/-- Witness for the amended C10: splicing ["get", "param", "use"]
removes the middle entry and shortens the array by one. -/
theorem methods_array_spliced_in_place_witness :
    (addAsync ⟨[], []⟩ ["get", "param", "use"]).2 =
        (["get", "param", "use"] : List String).erase "param" ∧
      (addAsync ⟨[], []⟩ ["get", "param", "use"]).2.length + 1 =
        (["get", "param", "use"] : List String).length :=
  methods_array_spliced_in_place ⟨[], []⟩ ["get", "param", "use"] (by simp)
